import Mathlib

/-!
# Verification of the repository classification engine

Shallow embedding of `documentation_bot.py`'s `RepositoryAnalyzer`:
the file-tree walk, ignore policy, language/file-role detection and
dependency extraction, together with theorems settling the frozen
claims about them.

The filesystem is modelled as the sequence of regular files yielded by
`Path.rglob('*')` (directory entries are filtered out by the
`file_path.is_file()` guard before any other logic, so only regular
files appear in the model).  Each file carries the observations the
code can make of it: its path components relative to the root, the
`stat()` size (and whether `stat()` succeeds at all), the bytes
returned by `open` + `read(1024)` (`none` when opening/reading
raises), and the result of `read_text()` (`none` when it raises).
-/

namespace DocBot

instance {ε α : Type} [DecidableEq ε] [DecidableEq α] : DecidableEq (Except ε α) :=
  fun a b =>
    match a, b with
    | .ok x, .ok y =>
        if h : x = y then .isTrue (by rw [h])
        else .isFalse (by intro he; cases he; exact h rfl)
    | .error x, .error y =>
        if h : x = y then .isTrue (by rw [h])
        else .isFalse (by intro he; cases he; exact h rfl)
    | .ok _, .error _ => .isFalse (by intro he; cases he)
    | .error _, .ok _ => .isFalse (by intro he; cases he)

/-- A regular file as observed by the analyzer. -/
structure FSFile where
  /-- path components relative to the repository root (`relative_to`) -/
  parts  : List String
  /-- `stat().st_size` -/
  size   : Nat
  /-- whether the `stat()` call succeeds (a disappearing file makes it raise) -/
  statOk : Bool
  /-- bytes returned by `open(file, 'rb')` + `f.read(1024)`; `none` if that raises -/
  chunk  : Option (List Nat)
  /-- result of `file_path.read_text()`; `none` if it raises -/
  text   : Option String
  deriving Repr, DecidableEq

/-- `file_path.name`: the final path component. -/
def FSFile.name (f : FSFile) : String := f.parts.getLastD ""

/-- `str(file_path.relative_to(self.repo_path))` with POSIX separators. -/
def relPath (f : FSFile) : String :=
  String.mk (List.intercalate ['/'] (f.parts.map String.data))

/-- `str.lower()` (ASCII case folding, which is what the filenames here use). -/
def lowerStr (s : String) : String := String.mk (s.data.map Char.toLower)

/-- Index of the last `'.'` in a list of characters, if any. -/
def lastDotIdx (cs : List Char) : Option Nat :=
  ((List.range cs.length).filter (fun i => cs.getD i ' ' = '.')).getLast?

/-- CPython `PurePath.suffix`: `name[i:]` for `i = name.rfind('.')` when
`0 < i < len(name) - 1`, else the empty string.  So `"a.py" ↦ ".py"`,
`".gitignore" ↦ ""`, `"dockerfile" ↦ ""`, `"archive.tar.gz" ↦ ".gz"`. -/
def pySuffix (name : String) : String :=
  match lastDotIdx name.data with
  | none => ""
  | some i => if 0 < i ∧ i + 1 < name.data.length then String.mk (name.data.drop i) else ""

/-- `file_path.suffix.lower()`. -/
def fsuffix (f : FSFile) : String := lowerStr (pySuffix f.name)

/-- The fixed ignored-directory name set of `_should_ignore_file`. -/
def ignoreDirs : List String :=
  [".git", "__pycache__", ".pytest_cache", "node_modules", ".venv", "venv"]

/-- The entry-point filename set of `_analyze_file`. -/
def mainNames : List String := ["main.py", "app.py", "index.py", "run.py"]

/-- The config filename set of `_analyze_file`. -/
def configNames : List String :=
  ["requirements.txt", "package.json", "setup.py", "pyproject.toml",
   "dockerfile", "docker-compose.yml", ".env.example", "config.json"]

/-- `RepositoryAnalyzer._should_ignore_file`.  `fullParts` is
`file_path.parts`, i.e. the root's own components followed by the
file's relative components.  The `stat()` call sits outside any
`try`, so its failure is an exception (`Except.error`), not an
"ignore" verdict; the `open`/`read` step is wrapped in a bare
`except: return True`. -/
def shouldIgnoreFile (fullParts : List String) (f : FSFile) : Except Unit Bool :=
  if fullParts.any (fun p => ignoreDirs.contains p) then .ok true
  else if f.statOk = false then .error ()
  else if f.size > 1024 * 1024 then .ok true
  else match f.chunk with
       | none => .ok true
       | some c => if c.contains 0 then .ok true else .ok false

/-- The analysis result dictionary of `RepositoryAnalyzer.analyze`.
`file_types` and `languages` are Python `set`s; they are modelled as
duplicate-free lists in insertion order, and all claims about them are
membership statements. -/
structure RepoProfile where
  file_types   : List String
  languages    : List String
  «structure»  : List String
  main_files   : List String
  config_files : List String
  dependencies : List String
  project_type : String
  deriving Repr, DecidableEq

/-- The initial `result` dictionary of `analyze`. -/
def emptyProfile : RepoProfile :=
  { file_types := [], languages := [], «structure» := [], main_files := [],
    config_files := [], dependencies := [], project_type := "unknown" }

/-- `set.add`: insert if not already present. -/
def setAdd (l : List String) (x : String) : List String :=
  if l.contains x then l else l ++ [x]

/-- Python `str.strip()` whitespace set. -/
def pyWhitespace : List Char := [' ', '\t', '\n', '\r', '\x0b', '\x0c']

/-- Python `str.strip()`: drop leading and trailing whitespace. -/
def pyStrip (cs : List Char) : List Char :=
  ((cs.dropWhile (fun c => pyWhitespace.contains c)).reverse.dropWhile
      (fun c => pyWhitespace.contains c)).reverse

/-- `content.split('\n')`: split a character list on a separator character;
always yields at least one (possibly empty) piece, like Python `str.split`
with an explicit separator. -/
def splitOnChar (sep : Char) : List Char → List (List Char)
  | [] => [[]]
  | c :: rest =>
    let r := splitOnChar sep rest
    if c = sep then [] :: r
    else match r with
         | h :: t => (c :: h) :: t
         | [] => [[c]]

/-- `'==' in line`: does the character list contain two adjacent `'='`? -/
def hasEqEq : List Char → Bool
  | '=' :: '=' :: _ => true
  | _ :: rest => hasEqEq rest
  | [] => false

/-- The per-line keep condition of the dependency loop:
`if line and not line.startswith('#') and '==' in line`
(applied to the already-stripped line). -/
def keepDepLine (l : List Char) : Bool :=
  !l.isEmpty && !(l.head? == some '#') && hasEqEq l

/-- The dependency lines extracted from a `requirements.txt` text:
split on newlines, strip each line, keep per `keepDepLine`, in order. -/
def depLines (t : String) : List String :=
  (splitOnChar '\n' t.data).filterMap (fun raw =>
    let l := pyStrip raw
    if keepDepLine l then some (String.mk l) else none)

/-- The `# Detect main files` block of `_analyze_file`. -/
def detectMain (f : FSFile) (r : RepoProfile) : RepoProfile :=
  if mainNames.contains (lowerStr f.name) then
    { r with main_files := r.main_files ++ [relPath f] }
  else r

/-- The `# Detect config files` block of `_analyze_file`. -/
def detectConfig (f : FSFile) (r : RepoProfile) : RepoProfile :=
  if configNames.contains (lowerStr f.name) then
    { r with config_files := r.config_files ++ [relPath f] }
  else r

/-- A primary-language branch body of `_analyze_file`: add the language and
set `project_type` if it is falsy or `'unknown'`. -/
def setPrimary (lang : String) (r : RepoProfile) : RepoProfile :=
  { r with
    languages := setAdd r.languages lang,
    project_type :=
      if r.project_type = "" ∨ r.project_type = "unknown" then lang
      else r.project_type }

/-- The `# Detect languages and project types` elif-cascade of `_analyze_file`,
keyed on `file_path.suffix.lower()`. -/
def detectLang (f : FSFile) (r : RepoProfile) : RepoProfile :=
  if fsuffix f = ".py" then setPrimary "Python" r
  else if fsuffix f = ".js" ∨ fsuffix f = ".jsx" ∨ fsuffix f = ".ts" ∨ fsuffix f = ".tsx" then
    setPrimary "JavaScript" r
  else if fsuffix f = ".html" ∨ fsuffix f = ".htm" then
    { r with languages := setAdd r.languages "HTML" }
  else if fsuffix f = ".css" then { r with languages := setAdd r.languages "CSS" }
  else if fsuffix f = ".json" then { r with languages := setAdd r.languages "JSON" }
  else if fsuffix f = ".md" then { r with languages := setAdd r.languages "Markdown" }
  else if fsuffix f = ".yml" ∨ fsuffix f = ".yaml" then
    { r with languages := setAdd r.languages "YAML" }
  else if fsuffix f = ".txt" then { r with languages := setAdd r.languages "Text" }
  else r

/-- The `# Extract dependencies from requirements.txt` block of
`_analyze_file`: only when the lower-cased filename is exactly
`requirements.txt`; a `read_text` failure is swallowed (`except: pass`). -/
def extractReqs (f : FSFile) (r : RepoProfile) : RepoProfile :=
  if lowerStr f.name = "requirements.txt" then
    match f.text with
    | some t => { r with dependencies := r.dependencies ++ depLines t }
    | none => r
  else r

/-- `RepositoryAnalyzer._analyze_file`. -/
def analyzeFile (f : FSFile) (r : RepoProfile) : RepoProfile :=
  extractReqs f (detectLang f (detectConfig f (detectMain f r)))

/-- The retained-file bookkeeping inside the walk loop of `analyze`:
append the relative path to `structure`, and record the lower-cased
suffix in `file_types` when non-empty (`if suffix:`). -/
def recordFile (f : FSFile) (r : RepoProfile) : RepoProfile :=
  if fsuffix f = "" then { r with «structure» := r.«structure» ++ [relPath f] }
  else { r with «structure» := r.«structure» ++ [relPath f],
                file_types := setAdd r.file_types (fsuffix f) }

/-- The walk loop of `RepositoryAnalyzer.analyze`, starting from an
accumulated `result`; an exception escaping `_should_ignore_file`
aborts the whole loop. -/
def analyzeFrom (rp : List String) (r : RepoProfile) : List FSFile → Except Unit RepoProfile
  | [] => .ok r
  | f :: rest =>
    match shouldIgnoreFile (rp ++ f.parts) f with
    | .error e => .error e
    | .ok true => analyzeFrom rp r rest
    | .ok false => analyzeFrom rp (analyzeFile f (recordFile f r)) rest

/-- `RepositoryAnalyzer.analyze`: `rp` is the root path's own components
(`self.repo_path.parts`), `fs` the regular files yielded by the walk in
enumeration order. -/
def analyze (rp : List String) (fs : List FSFile) : Except Unit RepoProfile :=
  analyzeFrom rp emptyProfile fs

/-- A file is retained (appears in the walk's per-file processing) iff
`_should_ignore_file` returns `False` on it. -/
def keptB (rp : List String) (f : FSFile) : Bool :=
  match shouldIgnoreFile (rp ++ f.parts) f with
  | .ok false => true
  | _ => false

/-- The condition under which `_should_ignore_file` raises: the file is not
inside an ignored directory (that check short-circuits first) and its
`stat()` call fails. -/
def statAborts (rp : List String) (f : FSFile) : Bool :=
  !(rp ++ f.parts).any (fun p => ignoreDirs.contains p) && !f.statOk

/-- Root-path observations made by `RepositoryAnalyzer.__init__`. -/
structure RootInfo where
  /-- `Path.exists()` -/
  pathExists : Bool
  /-- `Path.is_dir()` -/
  isDir : Bool
  deriving Repr, DecidableEq

/-- `RepositoryAnalyzer.__init__`: raises `ValueError` iff `exists()` is
false; `is_dir()` is never consulted. -/
def analyzerInit (root : RootInfo) : Except Unit Unit :=
  if root.pathExists = false then .error () else .ok ()

/-- Spec-side predicate (for comparison with `analyzerInit`): the scan should
be rejected when the root path does not exist or is not a directory. -/
def specShouldRejectRoot (root : RootInfo) : Bool :=
  !root.pathExists || !root.isDir

/-- Spec-side pass predicate of the ignore policy, following the claim's
wording: no path component in the ignored set, size at most 1,048,576
bytes, and the file can be opened and read with no null byte among the
first 1024 bytes. -/
def specPassesIgnorePolicy (fullParts : List String) (f : FSFile) : Prop :=
  (∀ p ∈ fullParts, p ∉ ignoreDirs) ∧ f.size ≤ 1048576 ∧
    ∃ c, f.chunk = some c ∧ (0 : Nat) ∉ c

/-- The extension-to-language mapping of the elif-cascade, as a function. -/
def langOf (suffix : String) : Option String :=
  if suffix = ".py" then some "Python"
  else if suffix = ".js" ∨ suffix = ".jsx" ∨ suffix = ".ts" ∨ suffix = ".tsx" then
    some "JavaScript"
  else if suffix = ".html" ∨ suffix = ".htm" then some "HTML"
  else if suffix = ".css" then some "CSS"
  else if suffix = ".json" then some "JSON"
  else if suffix = ".md" then some "Markdown"
  else if suffix = ".yml" ∨ suffix = ".yaml" then some "YAML"
  else if suffix = ".txt" then some "Text"
  else none

/-- The primary-language mapping (the branches that may set `project_type`). -/
def primaryOf (suffix : String) : Option String :=
  if suffix = ".py" then some "Python"
  else if suffix = ".js" ∨ suffix = ".jsx" ∨ suffix = ".ts" ∨ suffix = ".tsx" then
    some "JavaScript"
  else none

/-- The dependency lines a single file contributes. -/
def reqDeps (f : FSFile) : List String :=
  if lowerStr f.name = "requirements.txt" then
    match f.text with
    | some t => depLines t
    | none => []
  else []

/-- First-primary-language-wins, as a function of the retained files in
traversal order. -/
def specProjectType (kept : List FSFile) : String :=
  match kept.findSome? (fun f => primaryOf (fsuffix f)) with
  | some l => l
  | none => "unknown"

-- Sanity checks of the embedding on scenario B of the spec.

def sampleMain : FSFile :=
  { parts := ["main.py"], size := 22, statOk := true, chunk := some [112, 114],
    text := some "print()" }

def sampleUtils : FSFile :=
  { parts := ["utils.py"], size := 18, statOk := true, chunk := some [100],
    text := some "def helper(): pass" }

def sampleReqs : FSFile :=
  { parts := ["requirements.txt"], size := 31, statOk := true, chunk := some [114],
    text := some "requests==2.28.0\nflask==2.3.0" }

example :
    analyze [] [sampleMain, sampleUtils, sampleReqs] =
      .ok { file_types := [".py", ".txt"], languages := ["Python", "Text"],
            «structure» := ["main.py", "utils.py", "requirements.txt"],
            main_files := ["main.py"], config_files := ["requirements.txt"],
            dependencies := ["requests==2.28.0", "flask==2.3.0"],
            project_type := "Python" } := by decide

example : pySuffix ".gitignore" = "" := by decide
example : pySuffix "archive.tar.gz" = ".gz" := by decide
example : pySuffix "a." = "" := by decide

/-! ## Concrete repositories used as witnesses and counterexamples -/

/-- A Python file of 2 MiB: over the 1,048,576-byte limit. -/
def bigPy : FSFile :=
  { parts := ["big.py"], size := 2097152, statOk := true, chunk := some [120], text := none }

/-- A small, readable Python file. -/
def smallPy : FSFile :=
  { parts := ["small.py"], size := 10, statOk := true, chunk := some [120], text := none }

/-- Profile of scanning `[bigPy, smallPy]` (and of `[smallPy]` alone). -/
def smallPyProfile : RepoProfile :=
  { file_types := [".py"], languages := ["Python"], «structure» := ["small.py"],
    main_files := [], config_files := [], dependencies := [], project_type := "Python" }

/-- A file whose `stat()` call fails (disappeared between enumeration and stat). -/
def ghostFile : FSFile :=
  { parts := ["ghost.py"], size := 0, statOk := false, chunk := none, text := none }

/-- A healthy Python file enumerated after `ghostFile`. -/
def okPy : FSFile :=
  { parts := ["ok.py"], size := 5, statOk := true, chunk := some [1], text := none }

/-- A file whose `open`/`read` raises (e.g. permission denied), `stat` fine. -/
def readFailFile : FSFile :=
  { parts := ["locked.py"], size := 5, statOk := true, chunk := none, text := none }

/-- A small Python file `a.py`. -/
def aPy : FSFile :=
  { parts := ["a.py"], size := 3, statOk := true, chunk := some [97], text := none }

/-- A small JavaScript file `b.js`. -/
def bJs : FSFile :=
  { parts := ["b.js"], size := 3, statOk := true, chunk := some [98], text := none }

/-- Profile of scanning `[aPy, bJs]` in that enumeration order. -/
def abProfile1 : RepoProfile :=
  { file_types := [".py", ".js"], languages := ["Python", "JavaScript"],
    «structure» := ["a.py", "b.js"], main_files := [], config_files := [],
    dependencies := [], project_type := "Python" }

/-- Profile of scanning `[bJs, aPy]` in that enumeration order. -/
def abProfile2 : RepoProfile :=
  { file_types := [".js", ".py"], languages := ["JavaScript", "Python"],
    «structure» := ["b.js", "a.py"], main_files := [], config_files := [],
    dependencies := [], project_type := "JavaScript" }

/-- Profile of scanning `[aPy]` alone. -/
def aPyProfile : RepoProfile :=
  { file_types := [".py"], languages := ["Python"], «structure» := ["a.py"],
    main_files := [], config_files := [], dependencies := [], project_type := "Python" }

/-- Profile of scanning `[sampleUtils, bJs]`. -/
def utilsJsProfile : RepoProfile :=
  { file_types := [".py", ".js"], languages := ["Python", "JavaScript"],
    «structure» := ["utils.py", "b.js"], main_files := [], config_files := [],
    dependencies := [], project_type := "Python" }

/-- A readable `requirements.txt` with comment, padded, and unpinned lines. -/
def reqsFile : FSFile :=
  { parts := ["requirements.txt"], size := 60, statOk := true, chunk := some [114],
    text := some "requests==2.28.0\n# flask==0.0\n  django==4.2  \nnoversion\n" }

/-- A `requirements.txt` whose `read_text()` raises (e.g. bad encoding). -/
def reqsBroken : FSFile :=
  { parts := ["sub", "requirements.txt"], size := 10, statOk := true,
    chunk := some [114], text := none }

/-- Profile of scanning `[reqsFile, reqsBroken]`. -/
def reqsProfile : RepoProfile :=
  { file_types := [".txt"], languages := ["Text"],
    «structure» := ["requirements.txt", "sub/requirements.txt"], main_files := [],
    config_files := ["requirements.txt", "sub/requirements.txt"],
    dependencies := ["requests==2.28.0", "django==4.2"], project_type := "unknown" }

/-- A `Dockerfile`: extensionless, case-insensitively a config filename. -/
def dockerF : FSFile :=
  { parts := ["Dockerfile"], size := 5, statOk := true, chunk := some [70], text := none }

/-- Profile of scanning `[sampleMain, dockerF]`. -/
def mainDockerProfile : RepoProfile :=
  { file_types := [".py"], languages := ["Python"],
    «structure» := ["main.py", "Dockerfile"], main_files := ["main.py"],
    config_files := ["Dockerfile"], dependencies := [], project_type := "Python" }

/-- A readable file with an extension outside the language table. -/
def xyzFile : FSFile :=
  { parts := ["notes.xyz"], size := 4, statOk := true, chunk := some [110], text := none }

/-- Profile of scanning `[xyzFile, aPy]`. -/
def xyzProfile : RepoProfile :=
  { file_types := [".xyz", ".py"], languages := ["Python"],
    «structure» := ["notes.xyz", "a.py"], main_files := [], config_files := [],
    dependencies := [], project_type := "Python" }

/-- A regular file literally named `.git`, inside a non-ignored directory. -/
def gitNamedFile : FSFile :=
  { parts := ["sub", ".git"], size := 1, statOk := true, chunk := some [103], text := none }

/-- Profile of scanning `[gitNamedFile, aPy]`: only `a.py` is retained. -/
def gitAProfile : RepoProfile :=
  { file_types := [".py"], languages := ["Python"], «structure» := ["a.py"],
    main_files := [], config_files := [], dependencies := [], project_type := "Python" }

/-- Profile of scanning `[dockerF]` alone. -/
def dockerProfile : RepoProfile :=
  { file_types := [], languages := [], «structure» := ["Dockerfile"],
    main_files := [], config_files := ["Dockerfile"], dependencies := [],
    project_type := "unknown" }

/-! ## Helper lemmas: field projections of the per-file update -/

theorem mem_setAdd {l : List String} {x y : String} :
    y ∈ setAdd l x ↔ y ∈ l ∨ y = x := by
  unfold setAdd
  split <;> rename_i h
  · have hx : x ∈ l := by simpa using h
    constructor
    · exact Or.inl
    · rintro (hy | rfl)
      · exact hy
      · exact hx
  · simp

@[simp] theorem detectMain_main_files (f : FSFile) (r : RepoProfile) :
    (detectMain f r).main_files =
      if mainNames.contains (lowerStr f.name) then r.main_files ++ [relPath f]
      else r.main_files := by
  unfold detectMain; split <;> simp_all

@[simp] theorem detectMain_file_types (f : FSFile) (r : RepoProfile) :
    (detectMain f r).file_types = r.file_types := by
  unfold detectMain; split <;> rfl

@[simp] theorem detectMain_languages (f : FSFile) (r : RepoProfile) :
    (detectMain f r).languages = r.languages := by
  unfold detectMain; split <;> rfl

@[simp] theorem detectMain_structure (f : FSFile) (r : RepoProfile) :
    (detectMain f r).«structure» = r.«structure» := by
  unfold detectMain; split <;> rfl

@[simp] theorem detectMain_config_files (f : FSFile) (r : RepoProfile) :
    (detectMain f r).config_files = r.config_files := by
  unfold detectMain; split <;> rfl

@[simp] theorem detectMain_dependencies (f : FSFile) (r : RepoProfile) :
    (detectMain f r).dependencies = r.dependencies := by
  unfold detectMain; split <;> rfl

@[simp] theorem detectMain_project_type (f : FSFile) (r : RepoProfile) :
    (detectMain f r).project_type = r.project_type := by
  unfold detectMain; split <;> rfl

@[simp] theorem detectConfig_config_files (f : FSFile) (r : RepoProfile) :
    (detectConfig f r).config_files =
      if configNames.contains (lowerStr f.name) then r.config_files ++ [relPath f]
      else r.config_files := by
  unfold detectConfig; split <;> simp_all

@[simp] theorem detectConfig_file_types (f : FSFile) (r : RepoProfile) :
    (detectConfig f r).file_types = r.file_types := by
  unfold detectConfig; split <;> rfl

@[simp] theorem detectConfig_languages (f : FSFile) (r : RepoProfile) :
    (detectConfig f r).languages = r.languages := by
  unfold detectConfig; split <;> rfl

@[simp] theorem detectConfig_structure (f : FSFile) (r : RepoProfile) :
    (detectConfig f r).«structure» = r.«structure» := by
  unfold detectConfig; split <;> rfl

@[simp] theorem detectConfig_main_files (f : FSFile) (r : RepoProfile) :
    (detectConfig f r).main_files = r.main_files := by
  unfold detectConfig; split <;> rfl

@[simp] theorem detectConfig_dependencies (f : FSFile) (r : RepoProfile) :
    (detectConfig f r).dependencies = r.dependencies := by
  unfold detectConfig; split <;> rfl

@[simp] theorem detectConfig_project_type (f : FSFile) (r : RepoProfile) :
    (detectConfig f r).project_type = r.project_type := by
  unfold detectConfig; split <;> rfl

@[simp] theorem setPrimary_languages (lang : String) (r : RepoProfile) :
    (setPrimary lang r).languages = setAdd r.languages lang := rfl

@[simp] theorem setPrimary_project_type (lang : String) (r : RepoProfile) :
    (setPrimary lang r).project_type =
      if r.project_type = "" ∨ r.project_type = "unknown" then lang
      else r.project_type := rfl

@[simp] theorem setPrimary_file_types (lang : String) (r : RepoProfile) :
    (setPrimary lang r).file_types = r.file_types := rfl

@[simp] theorem setPrimary_structure (lang : String) (r : RepoProfile) :
    (setPrimary lang r).«structure» = r.«structure» := rfl

@[simp] theorem setPrimary_main_files (lang : String) (r : RepoProfile) :
    (setPrimary lang r).main_files = r.main_files := rfl

@[simp] theorem setPrimary_config_files (lang : String) (r : RepoProfile) :
    (setPrimary lang r).config_files = r.config_files := rfl

@[simp] theorem setPrimary_dependencies (lang : String) (r : RepoProfile) :
    (setPrimary lang r).dependencies = r.dependencies := rfl

theorem detectLang_languages (f : FSFile) (r : RepoProfile) :
    (detectLang f r).languages =
      match langOf (fsuffix f) with
      | some l => setAdd r.languages l
      | none => r.languages := by
  unfold detectLang langOf
  by_cases h1 : fsuffix f = ".py"
  · simp [h1]
  by_cases h2 : fsuffix f = ".js" ∨ fsuffix f = ".jsx" ∨ fsuffix f = ".ts" ∨ fsuffix f = ".tsx"
  · simp [h1, h2]
  by_cases h3 : fsuffix f = ".html" ∨ fsuffix f = ".htm"
  · simp [h1, h2, h3]
  by_cases h4 : fsuffix f = ".css"
  · simp [h1, h2, h3, h4]
  by_cases h5 : fsuffix f = ".json"
  · simp [h1, h2, h3, h4, h5]
  by_cases h6 : fsuffix f = ".md"
  · simp [h1, h2, h3, h4, h5, h6]
  by_cases h7 : fsuffix f = ".yml" ∨ fsuffix f = ".yaml"
  · simp [h1, h2, h3, h4, h5, h6, h7]
  by_cases h8 : fsuffix f = ".txt"
  · simp [h1, h2, h3, h4, h5, h6, h7, h8]
  simp [h1, h2, h3, h4, h5, h6, h7, h8]

theorem detectLang_project_type (f : FSFile) (r : RepoProfile) :
    (detectLang f r).project_type =
      match primaryOf (fsuffix f) with
      | some l =>
        if r.project_type = "" ∨ r.project_type = "unknown" then l
        else r.project_type
      | none => r.project_type := by
  unfold detectLang primaryOf
  by_cases h1 : fsuffix f = ".py"
  · simp [h1]
  by_cases h2 : fsuffix f = ".js" ∨ fsuffix f = ".jsx" ∨ fsuffix f = ".ts" ∨ fsuffix f = ".tsx"
  · simp [h1, h2]
  by_cases h3 : fsuffix f = ".html" ∨ fsuffix f = ".htm"
  · simp [h1, h2, h3]
  by_cases h4 : fsuffix f = ".css"
  · simp [h1, h2, h3, h4]
  by_cases h5 : fsuffix f = ".json"
  · simp [h1, h2, h3, h4, h5]
  by_cases h6 : fsuffix f = ".md"
  · simp [h1, h2, h3, h4, h5, h6]
  by_cases h7 : fsuffix f = ".yml" ∨ fsuffix f = ".yaml"
  · simp [h1, h2, h3, h4, h5, h6, h7]
  by_cases h8 : fsuffix f = ".txt"
  · simp [h1, h2, h3, h4, h5, h6, h7, h8]
  simp [h1, h2, h3, h4, h5, h6, h7, h8]

@[simp] theorem detectLang_file_types (f : FSFile) (r : RepoProfile) :
    (detectLang f r).file_types = r.file_types := by
  unfold detectLang
  repeat' split
  all_goals rfl

@[simp] theorem detectLang_structure (f : FSFile) (r : RepoProfile) :
    (detectLang f r).«structure» = r.«structure» := by
  unfold detectLang
  repeat' split
  all_goals rfl

@[simp] theorem detectLang_main_files (f : FSFile) (r : RepoProfile) :
    (detectLang f r).main_files = r.main_files := by
  unfold detectLang
  repeat' split
  all_goals rfl

@[simp] theorem detectLang_config_files (f : FSFile) (r : RepoProfile) :
    (detectLang f r).config_files = r.config_files := by
  unfold detectLang
  repeat' split
  all_goals rfl

@[simp] theorem detectLang_dependencies (f : FSFile) (r : RepoProfile) :
    (detectLang f r).dependencies = r.dependencies := by
  unfold detectLang
  repeat' split
  all_goals rfl

@[simp] theorem extractReqs_dependencies (f : FSFile) (r : RepoProfile) :
    (extractReqs f r).dependencies = r.dependencies ++ reqDeps f := by
  unfold extractReqs reqDeps
  repeat' split
  all_goals simp_all

@[simp] theorem extractReqs_file_types (f : FSFile) (r : RepoProfile) :
    (extractReqs f r).file_types = r.file_types := by
  unfold extractReqs
  repeat' split
  all_goals rfl

@[simp] theorem extractReqs_languages (f : FSFile) (r : RepoProfile) :
    (extractReqs f r).languages = r.languages := by
  unfold extractReqs
  repeat' split
  all_goals rfl

@[simp] theorem extractReqs_structure (f : FSFile) (r : RepoProfile) :
    (extractReqs f r).«structure» = r.«structure» := by
  unfold extractReqs
  repeat' split
  all_goals rfl

@[simp] theorem extractReqs_main_files (f : FSFile) (r : RepoProfile) :
    (extractReqs f r).main_files = r.main_files := by
  unfold extractReqs
  repeat' split
  all_goals rfl

@[simp] theorem extractReqs_config_files (f : FSFile) (r : RepoProfile) :
    (extractReqs f r).config_files = r.config_files := by
  unfold extractReqs
  repeat' split
  all_goals rfl

@[simp] theorem extractReqs_project_type (f : FSFile) (r : RepoProfile) :
    (extractReqs f r).project_type = r.project_type := by
  unfold extractReqs
  repeat' split
  all_goals rfl

@[simp] theorem recordFile_structure (f : FSFile) (r : RepoProfile) :
    (recordFile f r).«structure» = r.«structure» ++ [relPath f] := by
  unfold recordFile; split <;> rfl

@[simp] theorem recordFile_file_types (f : FSFile) (r : RepoProfile) :
    (recordFile f r).file_types =
      if fsuffix f = "" then r.file_types else setAdd r.file_types (fsuffix f) := by
  unfold recordFile; split <;> simp_all

@[simp] theorem recordFile_languages (f : FSFile) (r : RepoProfile) :
    (recordFile f r).languages = r.languages := by
  unfold recordFile; split <;> rfl

@[simp] theorem recordFile_main_files (f : FSFile) (r : RepoProfile) :
    (recordFile f r).main_files = r.main_files := by
  unfold recordFile; split <;> rfl

@[simp] theorem recordFile_config_files (f : FSFile) (r : RepoProfile) :
    (recordFile f r).config_files = r.config_files := by
  unfold recordFile; split <;> rfl

@[simp] theorem recordFile_dependencies (f : FSFile) (r : RepoProfile) :
    (recordFile f r).dependencies = r.dependencies := by
  unfold recordFile; split <;> rfl

@[simp] theorem recordFile_project_type (f : FSFile) (r : RepoProfile) :
    (recordFile f r).project_type = r.project_type := by
  unfold recordFile; split <;> rfl

/-! ## Helper lemmas: the combined per-retained-file update -/

@[simp] theorem step_structure (f : FSFile) (r : RepoProfile) :
    (analyzeFile f (recordFile f r)).«structure» = r.«structure» ++ [relPath f] := by
  simp [analyzeFile]

@[simp] theorem step_main_files (f : FSFile) (r : RepoProfile) :
    (analyzeFile f (recordFile f r)).main_files =
      if mainNames.contains (lowerStr f.name) then r.main_files ++ [relPath f]
      else r.main_files := by
  simp [analyzeFile]

@[simp] theorem step_config_files (f : FSFile) (r : RepoProfile) :
    (analyzeFile f (recordFile f r)).config_files =
      if configNames.contains (lowerStr f.name) then r.config_files ++ [relPath f]
      else r.config_files := by
  simp [analyzeFile]

@[simp] theorem step_dependencies (f : FSFile) (r : RepoProfile) :
    (analyzeFile f (recordFile f r)).dependencies = r.dependencies ++ reqDeps f := by
  simp [analyzeFile]

@[simp] theorem step_file_types (f : FSFile) (r : RepoProfile) :
    (analyzeFile f (recordFile f r)).file_types =
      if fsuffix f = "" then r.file_types else setAdd r.file_types (fsuffix f) := by
  simp [analyzeFile]

@[simp] theorem step_languages (f : FSFile) (r : RepoProfile) :
    (analyzeFile f (recordFile f r)).languages =
      match langOf (fsuffix f) with
      | some l => setAdd r.languages l
      | none => r.languages := by
  simp [analyzeFile, detectLang_languages]

@[simp] theorem step_project_type (f : FSFile) (r : RepoProfile) :
    (analyzeFile f (recordFile f r)).project_type =
      match primaryOf (fsuffix f) with
      | some l =>
        if r.project_type = "" ∨ r.project_type = "unknown" then l
        else r.project_type
      | none => r.project_type := by
  simp [analyzeFile, detectLang_project_type]

/-! ## Helper lemmas: the ignore decision -/

theorem ite_ok_ne_error {c : Prop} [Decidable c] {a b : Bool} :
    (if c then Except.ok a else Except.ok b) ≠ (Except.error () : Except Unit Bool) := by
  split <;> simp

theorem shouldIgnore_error_iff (rp : List String) (f : FSFile) :
    shouldIgnoreFile (rp ++ f.parts) f = .error () ↔ statAborts rp f = true := by
  unfold shouldIgnoreFile statAborts
  cases hA : (rp ++ f.parts).any (fun p => ignoreDirs.contains p) with
  | true => simp [hA]
  | false =>
    cases hS : f.statOk with
    | false => simp [hA, hS]
    | true =>
      by_cases hZ : f.size > 1024 * 1024
      · simp [hA, hS, hZ]
      · cases hC : f.chunk with
        | none => simp [hA, hS, hZ, hC]
        | some c => simp [hA, hS, hZ, hC, ite_ok_ne_error]

theorem keptB_eq_true_iff (rp : List String) (f : FSFile) :
    keptB rp f = true ↔ shouldIgnoreFile (rp ++ f.parts) f = .ok false := by
  unfold keptB
  repeat' split
  all_goals simp_all

theorem keptB_iff (rp : List String) (f : FSFile) :
    keptB rp f = true ↔
      ((rp ++ f.parts).any (fun p => ignoreDirs.contains p) = false ∧ f.statOk = true ∧
       f.size ≤ 1024 * 1024 ∧ ∃ c, f.chunk = some c ∧ c.contains 0 = false) := by
  rw [keptB_eq_true_iff]
  unfold shouldIgnoreFile
  cases hA : (rp ++ f.parts).any (fun p => ignoreDirs.contains p) with
  | true => simp [hA]
  | false =>
    cases hS : f.statOk with
    | false => simp [hA, hS]
    | true =>
      by_cases hZ : f.size > 1024 * 1024
      · have hZn : ¬(f.size ≤ 1024 * 1024) := Nat.not_le.mpr hZ
        simp [hA, hS, hZ, hZn]
      · have hZy : f.size ≤ 1024 * 1024 := Nat.not_lt.mp hZ
        cases hC : f.chunk with
        | none => simp [hA, hS, hZ, hC]
        | some c =>
          cases hN : c.contains 0 with
          | true =>
            have hN2 : (0 : Nat) ∈ c := by simpa using hN
            simp [hA, hS, hZ, hC, hN2]
          | false =>
            have hN2 : (0 : Nat) ∉ c := by simpa using hN
            simp [hA, hS, hZ, hZy, hC, hN2]

/-! ## Helper lemmas: characterizations of the walk loop -/

theorem analyzeFrom_ok_structure {rp : List String} {fs : List FSFile}
    {r p : RepoProfile} (hok : analyzeFrom rp r fs = .ok p) :
    p.«structure» = r.«structure» ++ (fs.filter (keptB rp)).map relPath := by
  induction fs generalizing r with
  | nil =>
    simp only [analyzeFrom] at hok
    injection hok with h
    subst h
    simp
  | cons f t ih =>
    simp only [analyzeFrom] at hok
    cases h : shouldIgnoreFile (rp ++ f.parts) f with
    | error e => rw [h] at hok; simp at hok
    | ok b =>
      rw [h] at hok
      cases b with
      | true =>
        have hk : keptB rp f = false := by simp [keptB, h]
        simp only at hok
        rw [ih hok]
        simp [List.filter_cons, hk]
      | false =>
        have hk : keptB rp f = true := by simp [keptB, h]
        simp only at hok
        have h2 := ih hok
        rw [step_structure] at h2
        rw [h2]
        simp [List.filter_cons, hk]

theorem analyzeFrom_ok_main_files {rp : List String} {fs : List FSFile}
    {r p : RepoProfile} (hok : analyzeFrom rp r fs = .ok p) :
    p.main_files = r.main_files ++
      ((fs.filter (keptB rp)).filter
        (fun f => mainNames.contains (lowerStr f.name))).map relPath := by
  induction fs generalizing r with
  | nil =>
    simp only [analyzeFrom] at hok
    injection hok with h
    subst h
    simp
  | cons f t ih =>
    simp only [analyzeFrom] at hok
    cases h : shouldIgnoreFile (rp ++ f.parts) f with
    | error e => rw [h] at hok; simp at hok
    | ok b =>
      rw [h] at hok
      cases b with
      | true =>
        have hk : keptB rp f = false := by simp [keptB, h]
        simp only at hok
        rw [ih hok]
        simp [List.filter_cons, hk]
      | false =>
        have hk : keptB rp f = true := by simp [keptB, h]
        simp only at hok
        have h2 := ih hok
        rw [step_main_files] at h2
        rw [h2]
        by_cases hm : lowerStr f.name ∈ mainNames <;>
          simp [List.filter_cons, hk, hm]

theorem analyzeFrom_ok_config_files {rp : List String} {fs : List FSFile}
    {r p : RepoProfile} (hok : analyzeFrom rp r fs = .ok p) :
    p.config_files = r.config_files ++
      ((fs.filter (keptB rp)).filter
        (fun f => configNames.contains (lowerStr f.name))).map relPath := by
  induction fs generalizing r with
  | nil =>
    simp only [analyzeFrom] at hok
    injection hok with h
    subst h
    simp
  | cons f t ih =>
    simp only [analyzeFrom] at hok
    cases h : shouldIgnoreFile (rp ++ f.parts) f with
    | error e => rw [h] at hok; simp at hok
    | ok b =>
      rw [h] at hok
      cases b with
      | true =>
        have hk : keptB rp f = false := by simp [keptB, h]
        simp only at hok
        rw [ih hok]
        simp [List.filter_cons, hk]
      | false =>
        have hk : keptB rp f = true := by simp [keptB, h]
        simp only at hok
        have h2 := ih hok
        rw [step_config_files] at h2
        rw [h2]
        by_cases hm : lowerStr f.name ∈ configNames <;>
          simp [List.filter_cons, hk, hm]

theorem analyzeFrom_ok_dependencies {rp : List String} {fs : List FSFile}
    {r p : RepoProfile} (hok : analyzeFrom rp r fs = .ok p) :
    p.dependencies = r.dependencies ++ (fs.filter (keptB rp)).flatMap reqDeps := by
  induction fs generalizing r with
  | nil =>
    simp only [analyzeFrom] at hok
    injection hok with h
    subst h
    simp
  | cons f t ih =>
    simp only [analyzeFrom] at hok
    cases h : shouldIgnoreFile (rp ++ f.parts) f with
    | error e => rw [h] at hok; simp at hok
    | ok b =>
      rw [h] at hok
      cases b with
      | true =>
        have hk : keptB rp f = false := by simp [keptB, h]
        simp only at hok
        rw [ih hok]
        simp [List.filter_cons, hk]
      | false =>
        have hk : keptB rp f = true := by simp [keptB, h]
        simp only at hok
        have h2 := ih hok
        rw [step_dependencies] at h2
        rw [h2]
        simp [List.filter_cons, hk]

theorem analyzeFrom_ok_mem_file_types {rp : List String} {fs : List FSFile}
    {r p : RepoProfile} (hok : analyzeFrom rp r fs = .ok p) (e : String) :
    e ∈ p.file_types ↔
      e ∈ r.file_types ∨
        (e ≠ "" ∧ ∃ f, f ∈ fs ∧ keptB rp f = true ∧ fsuffix f = e) := by
  induction fs generalizing r with
  | nil =>
    simp only [analyzeFrom] at hok
    injection hok with h
    subst h
    simp
  | cons f t ih =>
    simp only [analyzeFrom] at hok
    cases h : shouldIgnoreFile (rp ++ f.parts) f with
    | error e => rw [h] at hok; simp at hok
    | ok b =>
      rw [h] at hok
      cases b with
      | true =>
        have hk : keptB rp f = false := by simp [keptB, h]
        simp only at hok
        rw [ih hok]
        constructor
        · rintro (hr | ⟨hne, g, hg, hkg, hsg⟩)
          · exact Or.inl hr
          · exact Or.inr ⟨hne, g, List.mem_cons_of_mem _ hg, hkg, hsg⟩
        · rintro (hr | ⟨hne, g, hg, hkg, hsg⟩)
          · exact Or.inl hr
          · rcases List.mem_cons.mp hg with rfl | hg'
            · rw [hk] at hkg; cases hkg
            · exact Or.inr ⟨hne, g, hg', hkg, hsg⟩
      | false =>
        have hk : keptB rp f = true := by simp [keptB, h]
        simp only at hok
        rw [ih hok, step_file_types]
        by_cases hs : fsuffix f = ""
        · rw [if_pos hs]
          constructor
          · rintro (hr | ⟨hne, g, hg, hkg, hsg⟩)
            · exact Or.inl hr
            · exact Or.inr ⟨hne, g, List.mem_cons_of_mem _ hg, hkg, hsg⟩
          · rintro (hr | ⟨hne, g, hg, hkg, hsg⟩)
            · exact Or.inl hr
            · rcases List.mem_cons.mp hg with rfl | hg'
              · exact absurd (hs ▸ hsg) hne.symm
              · exact Or.inr ⟨hne, g, hg', hkg, hsg⟩
        · rw [if_neg hs]
          rw [mem_setAdd]
          constructor
          · rintro ((hr | he) | ⟨hne, g, hg, hkg, hsg⟩)
            · exact Or.inl hr
            · exact Or.inr ⟨he ▸ hs, f, List.mem_cons_self _ _, hk, he.symm⟩
            · exact Or.inr ⟨hne, g, List.mem_cons_of_mem _ hg, hkg, hsg⟩
          · rintro (hr | ⟨hne, g, hg, hkg, hsg⟩)
            · exact Or.inl (Or.inl hr)
            · rcases List.mem_cons.mp hg with rfl | hg'
              · exact Or.inl (Or.inr hsg.symm)
              · exact Or.inr ⟨hne, g, hg', hkg, hsg⟩

theorem analyzeFrom_ok_mem_languages {rp : List String} {fs : List FSFile}
    {r p : RepoProfile} (hok : analyzeFrom rp r fs = .ok p) (lang : String) :
    lang ∈ p.languages ↔
      lang ∈ r.languages ∨
        ∃ f, f ∈ fs ∧ keptB rp f = true ∧ langOf (fsuffix f) = some lang := by
  induction fs generalizing r with
  | nil =>
    simp only [analyzeFrom] at hok
    injection hok with h
    subst h
    simp
  | cons f t ih =>
    simp only [analyzeFrom] at hok
    cases h : shouldIgnoreFile (rp ++ f.parts) f with
    | error e => rw [h] at hok; simp at hok
    | ok b =>
      rw [h] at hok
      cases b with
      | true =>
        have hk : keptB rp f = false := by simp [keptB, h]
        simp only at hok
        rw [ih hok]
        constructor
        · rintro (hr | ⟨g, hg, hkg, hsg⟩)
          · exact Or.inl hr
          · exact Or.inr ⟨g, List.mem_cons_of_mem _ hg, hkg, hsg⟩
        · rintro (hr | ⟨g, hg, hkg, hsg⟩)
          · exact Or.inl hr
          · rcases List.mem_cons.mp hg with rfl | hg'
            · rw [hk] at hkg; cases hkg
            · exact Or.inr ⟨g, hg', hkg, hsg⟩
      | false =>
        have hk : keptB rp f = true := by simp [keptB, h]
        simp only at hok
        rw [ih hok, step_languages]
        cases hl : langOf (fsuffix f) with
        | none =>
          constructor
          · rintro (hr | ⟨g, hg, hkg, hsg⟩)
            · exact Or.inl hr
            · exact Or.inr ⟨g, List.mem_cons_of_mem _ hg, hkg, hsg⟩
          · rintro (hr | ⟨g, hg, hkg, hsg⟩)
            · exact Or.inl hr
            · rcases List.mem_cons.mp hg with rfl | hg'
              · rw [hl] at hsg; cases hsg
              · exact Or.inr ⟨g, hg', hkg, hsg⟩
        | some l =>
          rw [mem_setAdd]
          constructor
          · rintro ((hr | he) | ⟨g, hg, hkg, hsg⟩)
            · exact Or.inl hr
            · exact Or.inr ⟨f, List.mem_cons_self _ _, hk, he ▸ hl⟩
            · exact Or.inr ⟨g, List.mem_cons_of_mem _ hg, hkg, hsg⟩
          · rintro (hr | ⟨g, hg, hkg, hsg⟩)
            · exact Or.inl (Or.inl hr)
            · rcases List.mem_cons.mp hg with rfl | hg'
              · rw [hl] at hsg
                injection hsg with hsg
                exact Or.inl (Or.inr hsg.symm)
              · exact Or.inr ⟨g, hg', hkg, hsg⟩

theorem primaryOf_ne_sentinel {s l : String} (h : primaryOf s = some l) :
    ¬(l = "" ∨ l = "unknown") := by
  unfold primaryOf at h
  repeat' split at h
  all_goals first
    | (injection h with h2; subst h2; decide)
    | cases h

theorem analyzeFrom_ok_project_type {rp : List String} {fs : List FSFile}
    {r p : RepoProfile} (hok : analyzeFrom rp r fs = .ok p) :
    p.project_type =
      if r.project_type = "" ∨ r.project_type = "unknown" then
        match (fs.filter (keptB rp)).findSome? (fun f => primaryOf (fsuffix f)) with
        | some l => l
        | none => r.project_type
      else r.project_type := by
  induction fs generalizing r with
  | nil =>
    simp only [analyzeFrom] at hok
    injection hok with h
    subst h
    simp only [List.filter_nil, List.findSome?_nil]
    split <;> rfl
  | cons f t ih =>
    simp only [analyzeFrom] at hok
    cases h : shouldIgnoreFile (rp ++ f.parts) f with
    | error e => rw [h] at hok; simp at hok
    | ok b =>
      rw [h] at hok
      cases b with
      | true =>
        have hk : keptB rp f = false := by simp [keptB, h]
        simp only at hok
        rw [ih hok]
        simp [List.filter_cons, hk]
      | false =>
        have hk : keptB rp f = true := by simp [keptB, h]
        simp only at hok
        rw [ih hok, step_project_type]
        cases hpr : primaryOf (fsuffix f) with
        | none =>
          simp [List.filter_cons, hk, List.findSome?_cons, hpr]
        | some l =>
          have hns := primaryOf_ne_sentinel hpr
          by_cases hr : r.project_type = "" ∨ r.project_type = "unknown"
          · simp [List.filter_cons, hk, List.findSome?_cons, hpr, hr, hns]
          · simp [List.filter_cons, hk, List.findSome?_cons, hpr, hr]

theorem analyzeFrom_ok_of_no_abort {rp : List String} {fs : List FSFile}
    (r : RepoProfile) (h : ∀ f ∈ fs, statAborts rp f = false) :
    ∃ p, analyzeFrom rp r fs = .ok p := by
  induction fs generalizing r with
  | nil => exact ⟨r, rfl⟩
  | cons f t ih =>
    have ht : ∀ g ∈ t, statAborts rp g = false :=
      fun g hg => h g (List.mem_cons_of_mem _ hg)
    cases hS : shouldIgnoreFile (rp ++ f.parts) f with
    | error e =>
      exfalso
      cases e
      have hA : statAborts rp f = true := (shouldIgnore_error_iff rp f).mp hS
      rw [h f (List.mem_cons_self _ _)] at hA
      cases hA
    | ok b =>
      cases b with
      | true =>
        obtain ⟨p, hp⟩ := ih r ht
        exact ⟨p, by simp only [analyzeFrom, hS]; exact hp⟩
      | false =>
        obtain ⟨p, hp⟩ := ih (analyzeFile f (recordFile f r)) ht
        exact ⟨p, by simp only [analyzeFrom, hS]; exact hp⟩

theorem analyzeFrom_ok_no_abort {rp : List String} {fs : List FSFile}
    {r p : RepoProfile} (hok : analyzeFrom rp r fs = .ok p) :
    ∀ f ∈ fs, statAborts rp f = false := by
  induction fs generalizing r with
  | nil => intro g hg; cases hg
  | cons f t ih =>
    intro g hg
    simp only [analyzeFrom] at hok
    cases h : shouldIgnoreFile (rp ++ f.parts) f with
    | error e => rw [h] at hok; simp at hok
    | ok b =>
      rw [h] at hok
      rcases List.mem_cons.mp hg with rfl | hg'
      · cases hsa : statAborts rp g with
        | false => rfl
        | true =>
          exfalso
          rw [← shouldIgnore_error_iff] at hsa
          rw [h] at hsa
          simp at hsa
      · cases b with
        | true => simp only at hok; exact ih hok g hg'
        | false => simp only at hok; exact ih hok g hg'

theorem keptB_iff_passes {rp : List String} {f : FSFile}
    (hna : statAborts rp f = false) :
    keptB rp f = true ↔ specPassesIgnorePolicy (rp ++ f.parts) f := by
  rw [keptB_iff]
  unfold specPassesIgnorePolicy
  unfold statAborts at hna
  constructor
  · rintro ⟨h1, _h2, h3, c, hc, hn⟩
    refine ⟨?_, by omega, c, hc, by simpa using hn⟩
    intro q hq hqin
    have hcq : ignoreDirs.contains q = true := by simpa using hqin
    have : (rp ++ f.parts).any (fun p => ignoreDirs.contains p) = true :=
      List.any_eq_true.mpr ⟨q, hq, hcq⟩
    rw [this] at h1
    cases h1
  · rintro ⟨h1, h3, c, hc, hn⟩
    have hany : (rp ++ f.parts).any (fun p => ignoreDirs.contains p) = false := by
      rw [List.any_eq_false]
      intro x hx
      simpa using h1 x hx
    have hst : f.statOk = true := by
      rw [hany] at hna
      simpa using hna
    exact ⟨hany, hst, by omega, c, hc, by simpa using hn⟩

theorem getLastD_mem : ∀ (l : List String) (d : String), l ≠ [] → l.getLastD d ∈ l := by
  intro l
  induction l with
  | nil => intro d h; cases h rfl
  | cons a t ih =>
    intro d _
    rw [List.getLastD_cons]
    cases t with
    | nil => simp [List.getLastD]
    | cons b u => exact List.mem_cons_of_mem _ (ih a (by simp))

/-! ## Claim theorems -/

/-- C2, counterexample: the constructor checks only `exists()`, so a root
that exists but is a regular file (not a directory) — which the claim says
must be rejected — passes the check without any error. -/
theorem c2_counterexample :
    specShouldRejectRoot { pathExists := true, isDir := false } = true ∧
    analyzerInit { pathExists := true, isDir := false } = .ok () := by decide

/-- C2, amended: the scan's constructor raises the invalid-repository error
exactly when the root path does not exist, before any traversal; an
existing root that is not a directory is not rejected. -/
theorem c2_root_check (root : RootInfo) :
    analyzerInit root = .error () ↔ root.pathExists = false := by
  unfold analyzerInit
  split <;> simp_all

/-- C2 witness: the amended theorem applied to a missing root. -/
theorem c2_witness :
    analyzerInit { pathExists := false, isDir := true } = .error () :=
  (c2_root_check { pathExists := false, isDir := true }).mpr (by decide)

/-- C3, counterexample: a file whose `stat()` fails (disappeared between
enumeration and stat) sits outside the `try`, so the scan raises instead of
skipping it — the healthy file enumerated after it is never reported. -/
theorem c3_counterexample :
    analyze [] [ghostFile, okPy] = .error () := by decide

/-- C3, amended: open/read failures during the binary check are swallowed —
the file is silently skipped and a complete profile is still returned —
provided no file outside an ignored directory fails its `stat()`-based size
check; a `stat()` failure itself propagates and aborts the scan. -/
theorem c3_soft_errors (rp : List String) (fs : List FSFile)
    (h : ∀ f ∈ fs, statAborts rp f = false) :
    ∃ p, analyze rp fs = .ok p ∧
      p.«structure» = (fs.filter (keptB rp)).map relPath ∧
      ∀ f ∈ fs, f.chunk = none → keptB rp f = false := by
  obtain ⟨p, hp⟩ := analyzeFrom_ok_of_no_abort emptyProfile h
  refine ⟨p, hp, ?_, ?_⟩
  · have hst := analyzeFrom_ok_structure hp
    simpa [emptyProfile] using hst
  · intro f _hf hc
    cases hk : keptB rp f with
    | false => rfl
    | true =>
      exfalso
      obtain ⟨-, -, -, c, hcs, -⟩ := (keptB_iff rp f).mp hk
      rw [hc] at hcs
      cases hcs

/-- C3 witness: the amended theorem applied to a repository with one file
whose `open`/`read` raises. -/
theorem c3_witness :
    ∃ p, analyze [] [readFailFile] = .ok p ∧
      p.«structure» = ([readFailFile].filter (keptB [])).map relPath ∧
      ∀ f ∈ [readFailFile], f.chunk = none → keptB [] f = false :=
  c3_soft_errors [] [readFailFile] (by decide)

/-- C4: `project_type` equals the mapped language of the first retained
primary-language file in traversal order (never overwritten once concrete),
and is `"unknown"` when no retained `.py`/`.js`-family file exists —
including the empty repository. -/
theorem c4_project_type (rp : List String) (fs : List FSFile) (p : RepoProfile)
    (hok : analyze rp fs = .ok p) :
    p.project_type = specProjectType (fs.filter (keptB rp)) := by
  have h := analyzeFrom_ok_project_type hok
  unfold specProjectType
  simpa [emptyProfile] using h

/-- C4 witness: the first primary-language file (`utils.py`) wins over the
later `b.js`. -/
theorem c4_witness :
    utilsJsProfile.project_type = specProjectType ([sampleUtils, bJs].filter (keptB [])) :=
  c4_project_type [] [sampleUtils, bJs] utilsJsProfile (by decide)

/-- C6, counterexample: the walk applies no sorting, so two enumerations of
the same immutable tree (the same set of files, permuted as the OS may
yield them) produce different `structure` orders and even different
`project_type`s — the claim's cross-run identity fails. -/
theorem c6_counterexample :
    List.Perm [aPy, bJs] [bJs, aPy] ∧
    analyze [] [aPy, bJs] = .ok abProfile1 ∧
    analyze [] [bJs, aPy] = .ok abProfile2 ∧
    abProfile1.«structure» ≠ abProfile2.«structure» ∧
    abProfile1.project_type ≠ abProfile2.project_type :=
  ⟨List.Perm.swap bJs aPy [], by decide, by decide, by decide, by decide⟩

/-- C6, amended: the scan is a pure function of the enumerated file
sequence — `structure` is exactly the enumeration order filtered by the
ignore policy, and any scan observing the same enumeration yields the
identical profile; identical results across runs are therefore guaranteed
only when the filesystem enumerates the unchanged tree in the same order
(the code itself imposes no ordering such as lexicographic sorting). -/
theorem c6_determinism (rp : List String) (fs : List FSFile) (p : RepoProfile)
    (hok : analyze rp fs = .ok p) :
    p.«structure» = (fs.filter (keptB rp)).map relPath ∧
    ∀ fs2, fs2 = fs → analyze rp fs2 = .ok p := by
  constructor
  · have hst := analyzeFrom_ok_structure hok
    simpa [emptyProfile] using hst
  · intro fs2 h2
    rw [h2]
    exact hok

/-- C6 witness: the amended theorem applied to a one-file repository. -/
theorem c6_witness :
    aPyProfile.«structure» = ([aPy].filter (keptB [])).map relPath ∧
    ∀ fs2, fs2 = [aPy] → analyze [] fs2 = .ok aPyProfile :=
  c6_determinism [] [aPy] aPyProfile (by decide)

/-- C7: a retained file's relative path is appended to `main_files` exactly
when its lower-cased filename is one of the entry-point names, and to
`config_files` exactly when it is one of the config names; both sequences
preserve traversal order. -/
theorem c7_main_config (rp : List String) (fs : List FSFile) (p : RepoProfile)
    (hok : analyze rp fs = .ok p) :
    p.main_files =
      ((fs.filter (keptB rp)).filter
        (fun f => mainNames.contains (lowerStr f.name))).map relPath ∧
    p.config_files =
      ((fs.filter (keptB rp)).filter
        (fun f => configNames.contains (lowerStr f.name))).map relPath := by
  constructor
  · have h := analyzeFrom_ok_main_files hok
    simpa [emptyProfile] using h
  · have h := analyzeFrom_ok_config_files hok
    simpa [emptyProfile] using h

/-- C5: the scan appends to `dependencies` exactly the lines contributed by
retained files whose lower-cased filename is `requirements.txt` — each
file's full text split on newlines, each line whitespace-trimmed, kept when
non-empty, not starting with `#`, and containing the substring `==`,
appended verbatim (trimmed) in file order (`reqDeps`/`depLines`); when
reading such a file's content fails, it contributes no dependencies but the
scan does not fail and the file still appears in `structure` and
`config_files`. -/
theorem c5_dependencies (rp : List String) (fs : List FSFile) (p : RepoProfile)
    (hok : analyze rp fs = .ok p) :
    p.dependencies = (fs.filter (keptB rp)).flatMap reqDeps ∧
    ∀ f ∈ fs, keptB rp f = true → lowerStr f.name = "requirements.txt" →
      f.text = none →
      reqDeps f = [] ∧ relPath f ∈ p.«structure» ∧ relPath f ∈ p.config_files := by
  have hdep := analyzeFrom_ok_dependencies hok
  have hst := analyzeFrom_ok_structure hok
  have hcf := analyzeFrom_ok_config_files hok
  refine ⟨by simpa [emptyProfile] using hdep, ?_⟩
  intro f hf hk hname htext
  refine ⟨by simp [reqDeps, hname, htext], ?_, ?_⟩
  · rw [hst]
    exact List.mem_append_right _
      (List.mem_map.mpr ⟨f, List.mem_filter.mpr ⟨hf, hk⟩, rfl⟩)
  · have hcfg : configNames.contains (lowerStr f.name) = true := by
      rw [hname]; decide
    rw [hcf]
    exact List.mem_append_right _
      (List.mem_map.mpr
        ⟨f, List.mem_filter.mpr ⟨List.mem_filter.mpr ⟨hf, hk⟩, hcfg⟩, rfl⟩)

/-- C5 witness: a `requirements.txt` with a comment line, a padded pinned
line and an unpinned line, next to a second one whose `read_text` fails. -/
theorem c5_witness :
    reqsProfile.dependencies =
      ([reqsFile, reqsBroken].filter (keptB [])).flatMap reqDeps ∧
    ∀ f ∈ [reqsFile, reqsBroken], keptB [] f = true →
      lowerStr f.name = "requirements.txt" → f.text = none →
      reqDeps f = [] ∧ relPath f ∈ reqsProfile.«structure» ∧
        relPath f ∈ reqsProfile.config_files :=
  c5_dependencies [] [reqsFile, reqsBroken] reqsProfile (by decide)

/-- C8: `file_types` and `languages` are derived strictly from `structure` —
every member of `file_types` is the non-empty lower-cased extension of some
retained file whose path is in `structure`, every member of `languages` is
the mapped language of such a file's extension, and every retained file
with a non-empty extension has that extension recorded in `file_types`
(even when the extension maps to no language). -/
theorem c8_derived (rp : List String) (fs : List FSFile) (p : RepoProfile)
    (hok : analyze rp fs = .ok p) :
    (∀ e ∈ p.file_types, e ≠ "" ∧ ∃ f, f ∈ fs ∧ keptB rp f = true ∧
        e = fsuffix f ∧ relPath f ∈ p.«structure») ∧
    (∀ lang ∈ p.languages, ∃ f, f ∈ fs ∧ keptB rp f = true ∧
        langOf (fsuffix f) = some lang ∧ relPath f ∈ p.«structure») ∧
    (∀ f ∈ fs, keptB rp f = true → fsuffix f ≠ "" → fsuffix f ∈ p.file_types) := by
  have hst := analyzeFrom_ok_structure hok
  refine ⟨?_, ?_, ?_⟩
  · intro e he
    rcases (analyzeFrom_ok_mem_file_types hok e).mp he with h0 | ⟨hne, f, hf, hk, hsf⟩
    · exact absurd h0 (by simp [emptyProfile])
    · refine ⟨hne, f, hf, hk, hsf.symm, ?_⟩
      rw [hst]
      exact List.mem_append_right _
        (List.mem_map.mpr ⟨f, List.mem_filter.mpr ⟨hf, hk⟩, rfl⟩)
  · intro lang hl
    rcases (analyzeFrom_ok_mem_languages hok lang).mp hl with h0 | ⟨f, hf, hk, hsf⟩
    · exact absurd h0 (by simp [emptyProfile])
    · refine ⟨f, hf, hk, hsf, ?_⟩
      rw [hst]
      exact List.mem_append_right _
        (List.mem_map.mpr ⟨f, List.mem_filter.mpr ⟨hf, hk⟩, rfl⟩)
  · intro f hf hk hne
    exact (analyzeFrom_ok_mem_file_types hok (fsuffix f)).mpr
      (Or.inr ⟨hne, f, hf, hk, rfl⟩)

/-- C8 witness: an unmapped `.xyz` extension still lands in `file_types`;
every `file_types`/`languages` member traces back to a `structure` entry. -/
theorem c8_witness :
    (∀ e ∈ xyzProfile.file_types, e ≠ "" ∧ ∃ f, f ∈ [xyzFile, aPy] ∧
        keptB [] f = true ∧ e = fsuffix f ∧ relPath f ∈ xyzProfile.«structure») ∧
    (∀ lang ∈ xyzProfile.languages, ∃ f, f ∈ [xyzFile, aPy] ∧ keptB [] f = true ∧
        langOf (fsuffix f) = some lang ∧ relPath f ∈ xyzProfile.«structure») ∧
    (∀ f ∈ [xyzFile, aPy], keptB [] f = true → fsuffix f ≠ "" →
        fsuffix f ∈ xyzProfile.file_types) :=
  c8_derived [] [xyzFile, aPy] xyzProfile (by decide)

/-- C9: the ignored-directory check runs over every path component
including the file's own final name, so a regular file itself named
`.git`, `__pycache__`, `.pytest_cache`, `node_modules`, `.venv` or `venv`
is excluded from the scan even inside a non-ignored directory. -/
theorem c9_ignored_name (rp : List String) (fs : List FSFile) (p : RepoProfile)
    (f : FSFile) (hok : analyze rp fs = .ok p) (hf : f ∈ fs)
    (hname : f.name ∈ ignoreDirs)
    (hu : ∀ g ∈ fs, relPath g = relPath f → g = f) :
    relPath f ∉ p.«structure» := by
  have hst := analyzeFrom_ok_structure hok
  intro hmem
  rw [hst] at hmem
  rcases List.mem_append.mp hmem with h0 | h1
  · exact absurd h0 (by simp [emptyProfile])
  obtain ⟨g, hgf, hgrel⟩ := List.mem_map.mp h1
  obtain ⟨hg, hkg⟩ := List.mem_filter.mp hgf
  have hge : g = f := hu g hg hgrel
  subst hge
  have hne : g.parts ≠ [] := by
    intro h0
    have hn0 : g.name = "" := by unfold FSFile.name; rw [h0]; rfl
    rw [hn0] at hname
    exact absurd hname (by decide)
  have hmemName : g.name ∈ g.parts := getLastD_mem g.parts "" hne
  have hcont : ignoreDirs.contains g.name = true := by simpa using hname
  have hany : (rp ++ g.parts).any (fun q => ignoreDirs.contains q) = true :=
    List.any_eq_true.mpr ⟨g.name, List.mem_append_right _ hmemName, hcont⟩
  obtain ⟨h1a, -⟩ := (keptB_iff rp g).mp hkg
  rw [hany] at h1a
  cases h1a

/-- C9 witness: a readable regular file named `.git` inside the non-ignored
directory `sub` never reaches `structure`. -/
theorem c9_witness : relPath gitNamedFile ∉ gitAProfile.«structure» :=
  c9_ignored_name [] [gitNamedFile, aPy] gitAProfile gitNamedFile
    (by decide) (by decide) (by decide) (by decide)

/-- C10: a retained file with an empty extension (no dot, or a bare
leading-dot name) appears in `structure`, contributes nothing to
`file_types` (which never contains the empty string) and nothing to
`languages` (its suffix maps to no language, and every language member
comes from some retained file's mapped suffix), while its filename still
participates in entry-point and config detection. -/
theorem c10_empty_suffix (rp : List String) (fs : List FSFile) (p : RepoProfile)
    (f : FSFile) (hok : analyze rp fs = .ok p) (hf : f ∈ fs)
    (hk : keptB rp f = true) (hs : pySuffix f.name = "") :
    relPath f ∈ p.«structure» ∧
    "" ∉ p.file_types ∧
    langOf (fsuffix f) = none ∧
    (∀ lang ∈ p.languages, ∃ g, g ∈ fs ∧ keptB rp g = true ∧
        langOf (fsuffix g) = some lang) ∧
    (lowerStr f.name ∈ mainNames → relPath f ∈ p.main_files) ∧
    (lowerStr f.name ∈ configNames → relPath f ∈ p.config_files) := by
  have hst := analyzeFrom_ok_structure hok
  have hfs : fsuffix f = "" := by unfold fsuffix; rw [hs]; decide
  refine ⟨?_, ?_, ?_, ?_, ?_, ?_⟩
  · rw [hst]
    exact List.mem_append_right _
      (List.mem_map.mpr ⟨f, List.mem_filter.mpr ⟨hf, hk⟩, rfl⟩)
  · intro hmem
    rcases (analyzeFrom_ok_mem_file_types hok "").mp hmem with h0 | ⟨hne, -⟩
    · exact absurd h0 (by simp [emptyProfile])
    · exact hne rfl
  · rw [hfs]; decide
  · intro lang hl
    rcases (analyzeFrom_ok_mem_languages hok lang).mp hl with h0 | ⟨g, hg, hkg, hsg⟩
    · exact absurd h0 (by simp [emptyProfile])
    · exact ⟨g, hg, hkg, hsg⟩
  · intro hm
    rw [analyzeFrom_ok_main_files hok]
    refine List.mem_append_right _
      (List.mem_map.mpr
        ⟨f, List.mem_filter.mpr ⟨List.mem_filter.mpr ⟨hf, hk⟩, ?_⟩, rfl⟩)
    simpa using hm
  · intro hm
    rw [analyzeFrom_ok_config_files hok]
    refine List.mem_append_right _
      (List.mem_map.mpr
        ⟨f, List.mem_filter.mpr ⟨List.mem_filter.mpr ⟨hf, hk⟩, ?_⟩, rfl⟩)
    simpa using hm

/-- C10 witness: the extensionless `Dockerfile` is in `structure` and
`config_files` but contributes nothing to `file_types` or `languages`. -/
theorem c10_witness :
    relPath dockerF ∈ dockerProfile.«structure» ∧
    "" ∉ dockerProfile.file_types ∧
    langOf (fsuffix dockerF) = none ∧
    (∀ lang ∈ dockerProfile.languages, ∃ g, g ∈ [dockerF] ∧ keptB [] g = true ∧
        langOf (fsuffix g) = some lang) ∧
    (lowerStr dockerF.name ∈ mainNames → relPath dockerF ∈ dockerProfile.main_files) ∧
    (lowerStr dockerF.name ∈ configNames → relPath dockerF ∈ dockerProfile.config_files) :=
  c10_empty_suffix [] [dockerF] dockerProfile dockerF
    (by decide) (by decide) (by decide) (by decide)

/-- C1, counterexample: with a 2 MiB `big.py` next to a retained
`small.py`, the large file is (correctly) absent from `structure`, yet its
extension `.py` does appear in `file_types` — via the other file — so the
claim's "its extension never appears in fileTypes" is false as stated. -/
theorem c1_counterexample :
    analyze [] [bigPy, smallPy] = .ok smallPyProfile ∧
    bigPy.size > 1048576 ∧
    relPath bigPy ∉ smallPyProfile.«structure» ∧
    fsuffix bigPy = ".py" ∧
    ".py" ∈ smallPyProfile.file_types := by decide

/-- C1, amended: in a scan that returns a profile, a file's relative path
appears in `structure` iff it passes the ignore policy (no full-path
component in the ignored set, size at most 1,048,576 bytes, openable and
readable with no null byte in its first 1024 bytes); a file larger than
1 MiB never appears in `structure` and contributes no extension itself —
every `file_types` member is the extension of some retained file of size
at most 1 MiB — though the same extension may still appear via another,
retained file. -/
theorem c1_ignore_policy (rp : List String) (fs : List FSFile) (p : RepoProfile)
    (f : FSFile) (hok : analyze rp fs = .ok p) (hf : f ∈ fs)
    (hu : ∀ g ∈ fs, relPath g = relPath f → g = f) :
    (relPath f ∈ p.«structure» ↔ specPassesIgnorePolicy (rp ++ f.parts) f) ∧
    (f.size > 1048576 → relPath f ∉ p.«structure») ∧
    (∀ e ∈ p.file_types, ∃ g, g ∈ fs ∧ keptB rp g = true ∧ g.size ≤ 1048576 ∧
        e = fsuffix g ∧ relPath g ∈ p.«structure») := by
  have hst := analyzeFrom_ok_structure hok
  have hna := analyzeFrom_ok_no_abort hok
  have hiff : relPath f ∈ p.«structure» ↔ keptB rp f = true := by
    rw [hst]
    constructor
    · intro hmem
      rcases List.mem_append.mp hmem with h0 | h1
      · exact absurd h0 (by simp [emptyProfile])
      · obtain ⟨g, hgf, hgrel⟩ := List.mem_map.mp h1
        obtain ⟨hg, hkg⟩ := List.mem_filter.mp hgf
        rwa [hu g hg hgrel] at hkg
    · intro hk
      exact List.mem_append_right _
        (List.mem_map.mpr ⟨f, List.mem_filter.mpr ⟨hf, hk⟩, rfl⟩)
  have hpass := keptB_iff_passes (hna f hf)
  refine ⟨hiff.trans hpass, ?_, ?_⟩
  · intro hsize hmem
    obtain ⟨-, hle, -⟩ := (hiff.trans hpass).mp hmem
    omega
  · intro e he
    rcases (analyzeFrom_ok_mem_file_types hok e).mp he with h0 | ⟨hne, g, hg, hkg, hsg⟩
    · exact absurd h0 (by simp [emptyProfile])
    · obtain ⟨-, -, hle, -⟩ := (keptB_iff rp g).mp hkg
      refine ⟨g, hg, hkg, by omega, hsg.symm, ?_⟩
      rw [hst]
      exact List.mem_append_right _
        (List.mem_map.mpr ⟨g, List.mem_filter.mpr ⟨hg, hkg⟩, rfl⟩)

/-- C1 witness: the amended theorem applied to a one-file repository whose
file passes the policy. -/
theorem c1_witness :
    (relPath smallPy ∈ smallPyProfile.«structure» ↔
      specPassesIgnorePolicy ([] ++ smallPy.parts) smallPy) ∧
    (smallPy.size > 1048576 → relPath smallPy ∉ smallPyProfile.«structure») ∧
    (∀ e ∈ smallPyProfile.file_types, ∃ g, g ∈ [smallPy] ∧ keptB [] g = true ∧
        g.size ≤ 1048576 ∧ e = fsuffix g ∧ relPath g ∈ smallPyProfile.«structure») :=
  c1_ignore_policy [] [smallPy] smallPyProfile smallPy
    (by decide) (by decide) (by decide)

/-- C7 witness: `main.py` is detected as an entry point and the
extensionless `Dockerfile` as a config file, in traversal order. -/
theorem c7_witness :
    mainDockerProfile.main_files =
      (([sampleMain, dockerF].filter (keptB [])).filter
        (fun f => mainNames.contains (lowerStr f.name))).map relPath ∧
    mainDockerProfile.config_files =
      (([sampleMain, dockerF].filter (keptB [])).filter
        (fun f => configNames.contains (lowerStr f.name))).map relPath :=
  c7_main_config [] [sampleMain, dockerF] mainDockerProfile (by decide)

end DocBot
